import Mathlib

/-!
Shallow embedding of the core of the `67` downloader (Rust sources in
`src/`): the format-selection policy (`src/formats.rs`), the resumable
chunked transfer loop (`src/downloader.rs`), and the batch result
aggregation (`src/main.rs`).  All machine integers used by the embedded
code (u32/u64 sizes, i64 scores) stay far below their overflow bounds on
reachable values, so they are modelled as `Nat`/`Int` directly.
-/

/-- One fetchable rendition of a resource, mirroring `struct Format` in
`src/formats.rs` (u32/u64 fields become `Nat`). -/
structure Format where
  format_id : String
  url : String
  container : String
  video_codec : Option String
  audio_codec : Option String
  width : Option Nat
  height : Option Nat
  fps : Option Nat
  bitrate : Option Nat
  filesize : Option Nat
  quality : String
  quality_label : Option String
  audio_quality : Option String
  audio_sample_rate : Option Nat
  audio_channels : Option Nat
  is_audio_only : Bool
  is_video_only : Bool
deriving Repr, DecidableEq

/-- Errors of `src/error.rs` that the embedded functions can produce. -/
inductive Error where
  | noFormats : Error
  | formatNotFound : String → Error
  | downloadFailed : String → Error
deriving Repr, DecidableEq

/-- Mirrors `Format::quality_score` (src/formats.rs:90-119): the Rust code
starts from `score = 0` and adds each contribution in turn; all operands are
non-negative so i64 `/` agrees with `Int` division here. -/
def Format.quality_score (f : Format) : Int :=
  let score : Int := 0
  let score := match f.height with
    | some h => score + (h : Int) * 1000
    | none => score
  let score := match f.fps with
    | some fps => score + (fps : Int) * 10
    | none => score
  let score := match f.bitrate with
    | some br => score + (br : Int) / 1000
    | none => score
  let score := if !f.is_audio_only && !f.is_video_only then score + 500000 else score
  let score := if f.container = "mp4" then score + 100 else score
  score

/-- Mirrors `Format::audio_quality_score` (src/formats.rs:122-151). -/
def Format.audio_quality_score (f : Format) : Int :=
  let score : Int := 0
  let score := match f.audio_quality with
    | some aq =>
        score + (if aq = "AUDIO_QUALITY_HIGH" then 400
                 else if aq = "AUDIO_QUALITY_MEDIUM" then 300
                 else if aq = "AUDIO_QUALITY_LOW" then 200
                 else 100)
    | none => score
  let score := match f.audio_sample_rate with
    | some sr => score + (sr : Int) / 100
    | none => score
  let score := match f.bitrate with
    | some br => score + (br : Int) / 100
    | none => score
  let score := match f.audio_channels with
    | some ch => score + (ch : Int) * 50
    | none => score
  score

/-- Rust `Iterator::max_by_key`: on ties the LAST maximal element wins
(the fold replaces the accumulator when the new key is ≥). -/
def maxByKey (key : Format → Int) : List Format → Option Format
  | [] => none
  | x :: xs => some (xs.foldl (fun acc y => if key acc ≤ key y then y else acc) x)

/-- Rust `Iterator::min_by_key`: on ties the FIRST minimal element wins
(the fold replaces the accumulator only when the new key is strictly
smaller). -/
def minByKey (key : Format → Int) : List Format → Option Format
  | [] => none
  | x :: xs => some (xs.foldl (fun acc y => if key y < key acc then y else acc) x)

/-- The muxed variants: the filter applied at src/formats.rs:279-282 and
320-323. -/
def muxedOf (formats : List Format) : List Format :=
  formats.filter (fun f => !f.is_audio_only && !f.is_video_only)

/-- The video-capable variants: the filter applied at src/formats.rs:295
and 313. -/
def videoCapableOf (formats : List Format) : List Format :=
  formats.filter (fun f => !f.is_audio_only)

/-- The audio-capable variants: the filter applied at src/formats.rs:304. -/
def audioCapableOf (formats : List Format) : List Format :=
  formats.filter (fun f => f.is_audio_only || f.audio_codec.isSome)

/-- Mirrors `select_best` (src/formats.rs:277-299). -/
def select_best (formats : List Format) : Except Error Format :=
  let muxed := muxedOf formats
  if !muxed.isEmpty then
    match maxByKey Format.quality_score muxed with
    | some f => .ok f
    | none => .error .noFormats
  else
    match maxByKey Format.quality_score (videoCapableOf formats) with
    | some f => .ok f
    | none => .error .noFormats

/-- Mirrors `select_best_audio` (src/formats.rs:301-308). -/
def select_best_audio (formats : List Format) : Except Error Format :=
  match maxByKey Format.audio_quality_score (audioCapableOf formats) with
  | some f => .ok f
  | none => .error (.formatNotFound "No audio formats available")

/-- Mirrors `select_best_video` (src/formats.rs:310-317). -/
def select_best_video (formats : List Format) : Except Error Format :=
  match maxByKey Format.quality_score (videoCapableOf formats) with
  | some f => .ok f
  | none => .error (.formatNotFound "No video formats available")

/-- Mirrors `select_worst` (src/formats.rs:319-338): note that unlike
`select_best`, the fallback branch takes the minimum over ALL formats,
with no video-capability filter. -/
def select_worst (formats : List Format) : Except Error Format :=
  let muxed := muxedOf formats
  if !muxed.isEmpty then
    match minByKey Format.quality_score muxed with
    | some f => .ok f
    | none => .error .noFormats
  else
    match minByKey Format.quality_score formats with
    | some f => .ok f
    | none => .error .noFormats

/-- Mirrors Rust `str::to_lowercase` on the ASCII range (every policy
keyword and every token the claims exercise is ASCII). -/
def toLowercase (s : String) : String := ⟨s.data.map Char.toLower⟩

/-- Mirrors `select_format` (src/formats.rs:251-275); the Rust `match` on
the lowercased policy token is a chain of string-equality tests. -/
def select_format (formats : List Format) (format_str : String)
    (audio_only : Bool) : Except Error Format :=
  if formats.isEmpty then .error .noFormats
  else if audio_only then select_best_audio formats
  else
    let s := toLowercase format_str
    if s = "best" then select_best formats
    else if s = "bestaudio" then select_best_audio formats
    else if s = "bestvideo" then select_best_video formats
    else if s = "worst" then select_worst formats
    else
      match formats.find? (fun f => f.format_id == format_str) with
      | some f => .ok f
      | none => .error (.formatNotFound format_str)

/-! Helper lemmas about `maxByKey` / `minByKey`. -/

/-- Specification predicate: `v` occurs in `l`, every element attains at
most `key v`, and every element AFTER `v` is strictly below it — i.e. `v`
is the last element attaining the maximum. -/
def isLastMax (key : Format → Int) (l : List Format) (v : Format) : Prop :=
  ∃ l1 l2, l = l1 ++ v :: l2 ∧ (∀ x ∈ l1, key x ≤ key v) ∧ (∀ x ∈ l2, key x < key v)

/-- Specification predicate: `v` occurs in `l`, every element attains at
least `key v`, and every element BEFORE `v` is strictly above it — i.e.
`v` is the first element attaining the minimum. -/
def isFirstMin (key : Format → Int) (l : List Format) (v : Format) : Prop :=
  ∃ l1 l2, l = l1 ++ v :: l2 ∧ (∀ x ∈ l1, key v < key x) ∧ (∀ x ∈ l2, key v ≤ key x)

lemma isLastMax_mem {key : Format → Int} {l : List Format} {v : Format}
    (h : isLastMax key l v) : v ∈ l := by
  obtain ⟨l1, l2, rfl, -, -⟩ := h
  exact List.mem_append_right _ (List.mem_cons_self _ _)

lemma isLastMax_le {key : Format → Int} {l : List Format} {v : Format}
    (h : isLastMax key l v) : ∀ x ∈ l, key x ≤ key v := by
  obtain ⟨l1, l2, rfl, h1, h2⟩ := h
  intro x hx
  rcases List.mem_append.1 hx with hx | hx
  · exact h1 x hx
  · rcases List.mem_cons.1 hx with rfl | hx
    · exact le_refl _
    · exact le_of_lt (h2 x hx)

lemma isFirstMin_mem {key : Format → Int} {l : List Format} {v : Format}
    (h : isFirstMin key l v) : v ∈ l := by
  obtain ⟨l1, l2, rfl, -, -⟩ := h
  exact List.mem_append_right _ (List.mem_cons_self _ _)

lemma isFirstMin_le {key : Format → Int} {l : List Format} {v : Format}
    (h : isFirstMin key l v) : ∀ x ∈ l, key v ≤ key x := by
  obtain ⟨l1, l2, rfl, h1, h2⟩ := h
  intro x hx
  rcases List.mem_append.1 hx with hx | hx
  · exact le_of_lt (h1 x hx)
  · rcases List.mem_cons.1 hx with rfl | hx
    · exact le_refl _
    · exact h2 x hx

lemma foldl_max_spec (key : Format → Int) (xs : List Format) :
    ∀ (acc r : Format),
      xs.foldl (fun a y => if key a ≤ key y then y else a) acc = r →
      (r = acc ∧ ∀ y ∈ xs, key y < key acc) ∨
      (∃ l1 l2, xs = l1 ++ r :: l2 ∧ key acc ≤ key r ∧
        (∀ y ∈ l1, key y ≤ key r) ∧ (∀ y ∈ l2, key y < key r)) := by
  induction xs with
  | nil =>
      intro acc r h
      left
      exact ⟨h.symm, by simp⟩
  | cons y ys ih =>
      intro acc r h
      simp only [List.foldl_cons] at h
      by_cases hc : key acc ≤ key y
      · rw [if_pos hc] at h
        rcases ih y r h with ⟨rfl, hall⟩ | ⟨l1, l2, rfl, hyr, h1, h2⟩
        · exact Or.inr ⟨[], ys, rfl, hc, by simp, hall⟩
        · refine Or.inr ⟨y :: l1, l2, rfl, le_trans hc hyr, ?_, h2⟩
          intro z hz
          rcases List.mem_cons.1 hz with rfl | hz
          · exact hyr
          · exact h1 z hz
      · rw [if_neg hc] at h
        push_neg at hc
        rcases ih acc r h with ⟨rfl, hall⟩ | ⟨l1, l2, rfl, hyr, h1, h2⟩
        · refine Or.inl ⟨rfl, ?_⟩
          intro z hz
          rcases List.mem_cons.1 hz with rfl | hz
          · exact hc
          · exact hall z hz
        · refine Or.inr ⟨y :: l1, l2, rfl, hyr, ?_, h2⟩
          intro z hz
          rcases List.mem_cons.1 hz with rfl | hz
          · exact le_of_lt (lt_of_lt_of_le hc hyr)
          · exact h1 z hz

lemma foldl_min_spec (key : Format → Int) (xs : List Format) :
    ∀ (acc r : Format),
      xs.foldl (fun a y => if key y < key a then y else a) acc = r →
      (r = acc ∧ ∀ y ∈ xs, key acc ≤ key y) ∨
      (∃ l1 l2, xs = l1 ++ r :: l2 ∧ key r < key acc ∧
        (∀ y ∈ l1, key r < key y) ∧ (∀ y ∈ l2, key r ≤ key y)) := by
  induction xs with
  | nil =>
      intro acc r h
      left
      exact ⟨h.symm, by simp⟩
  | cons y ys ih =>
      intro acc r h
      simp only [List.foldl_cons] at h
      by_cases hc : key y < key acc
      · rw [if_pos hc] at h
        rcases ih y r h with ⟨rfl, hall⟩ | ⟨l1, l2, rfl, hyr, h1, h2⟩
        · exact Or.inr ⟨[], ys, rfl, hc, by simp, hall⟩
        · refine Or.inr ⟨y :: l1, l2, rfl, lt_trans hyr hc, ?_, h2⟩
          intro z hz
          rcases List.mem_cons.1 hz with rfl | hz
          · exact hyr
          · exact h1 z hz
      · rw [if_neg hc] at h
        push_neg at hc
        rcases ih acc r h with ⟨rfl, hall⟩ | ⟨l1, l2, rfl, hyr, h1, h2⟩
        · refine Or.inl ⟨rfl, ?_⟩
          intro z hz
          rcases List.mem_cons.1 hz with rfl | hz
          · exact hc
          · exact hall z hz
        · refine Or.inr ⟨y :: l1, l2, rfl, hyr, ?_, h2⟩
          intro z hz
          rcases List.mem_cons.1 hz with rfl | hz
          · exact lt_of_lt_of_le hyr hc
          · exact h1 z hz

lemma maxByKey_spec {key : Format → Int} {l : List Format} {r : Format}
    (h : maxByKey key l = some r) : isLastMax key l r := by
  cases l with
  | nil => simp [maxByKey] at h
  | cons x xs =>
      simp only [maxByKey, Option.some.injEq] at h
      rcases foldl_max_spec key xs x r h with ⟨rfl, hall⟩ | ⟨l1, l2, rfl, hxr, h1, h2⟩
      · exact ⟨[], xs, rfl, by simp, hall⟩
      · refine ⟨x :: l1, l2, rfl, ?_, h2⟩
        intro z hz
        rcases List.mem_cons.1 hz with rfl | hz
        · exact hxr
        · exact h1 z hz

lemma minByKey_spec {key : Format → Int} {l : List Format} {r : Format}
    (h : minByKey key l = some r) : isFirstMin key l r := by
  cases l with
  | nil => simp [minByKey] at h
  | cons x xs =>
      simp only [minByKey, Option.some.injEq] at h
      rcases foldl_min_spec key xs x r h with ⟨rfl, hall⟩ | ⟨l1, l2, rfl, hxr, h1, h2⟩
      · exact ⟨[], xs, rfl, by simp, hall⟩
      · refine ⟨x :: l1, l2, rfl, ?_, h2⟩
        intro z hz
        rcases List.mem_cons.1 hz with rfl | hz
        · exact hxr
        · exact h1 z hz

lemma maxByKey_isSome {key : Format → Int} {l : List Format} (h : l ≠ []) :
    ∃ r, maxByKey key l = some r := by
  cases l with
  | nil => exact absurd rfl h
  | cons x xs => exact ⟨_, rfl⟩

lemma minByKey_isSome {key : Format → Int} {l : List Format} (h : l ≠ []) :
    ∃ r, minByKey key l = some r := by
  cases l with
  | nil => exact absurd rfl h
  | cons x xs => exact ⟨_, rfl⟩

lemma isEmpty_false_of_ne {α : Type} {l : List α} (h : l ≠ []) :
    l.isEmpty = false := by
  cases l with
  | nil => exact absurd rfl h
  | cons x xs => rfl

/-! Characterizations of the selection functions. -/

lemma toLowercase_best : toLowercase "best" = "best" := rfl

lemma select_format_best {fmts : List Format} (h : fmts ≠ []) :
    select_format fmts "best" false = select_best fmts := by
  simp [select_format, isEmpty_false_of_ne h, toLowercase_best]

lemma toLowercase_worst : toLowercase "worst" = "worst" := rfl

lemma select_format_worst {fmts : List Format} (h : fmts ≠ []) :
    select_format fmts "worst" false = select_worst fmts := by
  simp [select_format, isEmpty_false_of_ne h, toLowercase_worst]

lemma select_best_of_muxed {fmts : List Format} {v : Format}
    (h : maxByKey Format.quality_score (muxedOf fmts) = some v) :
    select_best fmts = .ok v := by
  have hne : muxedOf fmts ≠ [] := by
    intro hnil
    rw [hnil] at h
    simp [maxByKey] at h
  simp [select_best, isEmpty_false_of_ne hne, h]

lemma select_best_of_fallback {fmts : List Format} {v : Format}
    (hm : muxedOf fmts = [])
    (h : maxByKey Format.quality_score (videoCapableOf fmts) = some v) :
    select_best fmts = .ok v := by
  simp [select_best, hm, h]

lemma select_best_err {fmts : List Format}
    (hv : videoCapableOf fmts = []) :
    select_best fmts = .error .noFormats := by
  have hm : muxedOf fmts = [] := by
    rcases hx : muxedOf fmts with _ | ⟨x, xs⟩
    · rfl
    · exfalso
      have hxmem : x ∈ muxedOf fmts := by rw [hx]; exact List.mem_cons_self _ _
      have := List.mem_filter.1 hxmem
      have hxv : x ∈ videoCapableOf fmts := by
        refine List.mem_filter.2 ⟨this.1, ?_⟩
        have := this.2
        simp only [Bool.and_eq_true] at this
        exact this.1
      rw [hv] at hxv
      cases hxv
  simp [select_best, hm, hv, maxByKey]

lemma select_worst_of_muxed {fmts : List Format} {v : Format}
    (h : minByKey Format.quality_score (muxedOf fmts) = some v) :
    select_worst fmts = .ok v := by
  have hne : muxedOf fmts ≠ [] := by
    intro hnil
    rw [hnil] at h
    simp [minByKey] at h
  simp [select_worst, isEmpty_false_of_ne hne, h]

lemma select_worst_of_fallback {fmts : List Format} {v : Format}
    (hm : muxedOf fmts = [])
    (h : minByKey Format.quality_score fmts = some v) :
    select_worst fmts = .ok v := by
  simp [select_worst, hm, h]

lemma select_best_inv {fmts : List Format} {v : Format}
    (h : select_best fmts = .ok v) :
    (muxedOf fmts ≠ [] ∧ maxByKey Format.quality_score (muxedOf fmts) = some v) ∨
    (muxedOf fmts = [] ∧ maxByKey Format.quality_score (videoCapableOf fmts) = some v) := by
  rcases hm : muxedOf fmts with _ | ⟨x, xs⟩
  · right
    refine ⟨rfl, ?_⟩
    rcases hv : maxByKey Format.quality_score (videoCapableOf fmts) with _ | r
    · exfalso
      simp [select_best, hm, hv] at h
    · have h2 : select_best fmts = .ok r := select_best_of_fallback hm hv
      rw [h] at h2
      injection h2 with h3
      rw [h3]
  · left
    refine ⟨List.cons_ne_nil _ _, ?_⟩
    rcases hq : maxByKey Format.quality_score (x :: xs) with _ | r
    · simp [maxByKey] at hq
    · have h2 : select_best fmts = .ok r := select_best_of_muxed (by rw [hm]; exact hq)
      rw [h] at h2
      injection h2 with h3
      rw [h3]

lemma select_worst_inv {fmts : List Format} {v : Format}
    (h : select_worst fmts = .ok v) :
    (muxedOf fmts ≠ [] ∧ minByKey Format.quality_score (muxedOf fmts) = some v) ∨
    (muxedOf fmts = [] ∧ minByKey Format.quality_score fmts = some v) := by
  rcases hm : muxedOf fmts with _ | ⟨x, xs⟩
  · right
    refine ⟨rfl, ?_⟩
    rcases hv : minByKey Format.quality_score fmts with _ | r
    · exfalso
      simp [select_worst, hm, hv] at h
    · have h2 : select_worst fmts = .ok r := select_worst_of_fallback hm hv
      rw [h] at h2
      injection h2 with h3
      rw [h3]
  · left
    refine ⟨List.cons_ne_nil _ _, ?_⟩
    rcases hq : minByKey Format.quality_score (x :: xs) with _ | r
    · simp [minByKey] at hq
    · have h2 : select_worst fmts = .ok r := select_worst_of_muxed (by rw [hm]; exact hq)
      rw [h] at h2
      injection h2 with h3
      rw [h3]

lemma select_best_video_inv {fmts : List Format} {v : Format}
    (h : select_best_video fmts = .ok v) :
    maxByKey Format.quality_score (videoCapableOf fmts) = some v := by
  unfold select_best_video at h
  rcases hv : maxByKey Format.quality_score (videoCapableOf fmts) with _ | r
  · rw [hv] at h
    cases h
  · rw [hv] at h
    simp only [Except.ok.injEq] at h
    rw [h]

lemma select_best_audio_inv {fmts : List Format} {v : Format}
    (h : select_best_audio fmts = .ok v) :
    maxByKey Format.audio_quality_score (audioCapableOf fmts) = some v := by
  unfold select_best_audio at h
  rcases hv : maxByKey Format.audio_quality_score (audioCapableOf fmts) with _ | r
  · rw [hv] at h
    cases h
  · rw [hv] at h
    simp only [Except.ok.injEq] at h
    rw [h]

/-! Concrete catalogs used by the counterexamples and witnesses. -/

/-- A muxed 360p variant (the catalog A/B/C of spec §8). -/
def fmtA : Format :=
  { format_id := "18", url := "a", container := "mp4",
    video_codec := some "avc1.42001E", audio_codec := some "mp4a.40.2",
    width := none, height := some 360, fps := some 30,
    bitrate := some 700000, filesize := none, quality := "medium",
    quality_label := none, audio_quality := some "AUDIO_QUALITY_LOW",
    audio_sample_rate := some 44100, audio_channels := some 2,
    is_audio_only := false, is_video_only := false }

/-- A muxed 720p variant. -/
def fmtB : Format :=
  { fmtA with format_id := "22", height := some 720, bitrate := some 2500000 }

/-- A video-only 1080p variant. -/
def fmtC : Format :=
  { fmtA with
    format_id := "137", height := some 1080, audio_codec := none,
    audio_quality := none, audio_sample_rate := none, audio_channels := none,
    is_video_only := true }

/-- An audio-only variant. -/
def fmtAudio : Format :=
  { format_id := "140", url := "a", container := "m4a",
    video_codec := none, audio_codec := some "mp4a.40.2",
    width := none, height := none, fps := none,
    bitrate := some 129000, filesize := none, quality := "tiny",
    quality_label := none, audio_quality := some "AUDIO_QUALITY_MEDIUM",
    audio_sample_rate := some 44100, audio_channels := some 2,
    is_audio_only := true, is_video_only := false }

/-- An audio-only variant with no audio metadata at all. -/
def fmtAudioPlain : Format :=
  { fmtAudio with
    format_id := "139", audio_quality := none,
    audio_sample_rate := none, audio_channels := none, bitrate := none }

/-- A second muxed variant with exactly the same quality score as `fmtA`,
distinguishable only by its id — used to exercise tie-breaking. -/
def fmtATwin : Format :=
  { fmtA with format_id := "18twin" }

/-- C1: the claim asserts that for every non-empty catalog without muxed
variants, `"best"` returns a video-capable variant; on the all-audio-only
catalog `[fmtAudio]` (which has no muxed variant) the code instead fails
with `NoFormats`, so the claim as stated is false. -/
theorem c1_counterexample :
    select_format [fmtAudio] "best" false = .error .noFormats ∧
    ¬ ∃ v, select_format [fmtAudio] "best" false = .ok v ∧
      v.is_audio_only = false := by
  refine ⟨rfl, ?_⟩
  rintro ⟨v, hv, -⟩
  have : (Except.error Error.noFormats : Except Error Format) = .ok v :=
    (rfl : select_format [fmtAudio] "best" false = .error .noFormats).symm.trans hv
  cases this

/-- C1 (amended): for a non-empty catalog with policy `"best"` and
`audio_only` unset: if a muxed variant exists the result is a muxed variant
maximizing `quality_score` over the muxed variants; if no muxed variant
exists but a video-capable one does, the result is a video-capable variant
maximizing `quality_score` over the video-capable variants; if every
variant is audio-only the selection fails with `NoFormats`. -/
theorem c1_best_selection (fmts : List Format) (h : fmts ≠ []) :
    (muxedOf fmts ≠ [] →
      ∃ v, select_format fmts "best" false = .ok v ∧ v ∈ muxedOf fmts ∧
        ∀ w ∈ muxedOf fmts, w.quality_score ≤ v.quality_score) ∧
    (muxedOf fmts = [] → videoCapableOf fmts ≠ [] →
      ∃ v, select_format fmts "best" false = .ok v ∧ v.is_audio_only = false ∧
        v ∈ videoCapableOf fmts ∧
        ∀ w ∈ videoCapableOf fmts, w.quality_score ≤ v.quality_score) ∧
    (videoCapableOf fmts = [] →
      select_format fmts "best" false = .error .noFormats) := by
  rw [select_format_best h]
  refine ⟨?_, ?_, ?_⟩
  · intro hm
    obtain ⟨r, hr⟩ := @maxByKey_isSome Format.quality_score _ hm
    have hspec := maxByKey_spec hr
    exact ⟨r, select_best_of_muxed hr, isLastMax_mem hspec, isLastMax_le hspec⟩
  · intro hm hvne
    obtain ⟨r, hr⟩ := @maxByKey_isSome Format.quality_score _ hvne
    have hspec := maxByKey_spec hr
    have hmem := isLastMax_mem hspec
    have haud : r.is_audio_only = false := by
      have hf := (List.mem_filter.1
        (show r ∈ fmts.filter (fun f => !f.is_audio_only) from hmem)).2
      simpa using hf
    exact ⟨r, select_best_of_fallback hm hr, haud, hmem, isLastMax_le hspec⟩
  · intro hv
    exact select_best_err hv

/-- Witness for C1 on the spec §8 catalog: `"best"` picks the muxed
variant `fmtB`. -/
theorem c1_best_selection_witness :
    ∃ v, select_format [fmtA, fmtB, fmtC] "best" false = .ok v ∧
      v ∈ muxedOf [fmtA, fmtB, fmtC] ∧
      ∀ w ∈ muxedOf [fmtA, fmtB, fmtC],
        w.quality_score ≤ v.quality_score :=
  (c1_best_selection [fmtA, fmtB, fmtC] (by decide)).1 (by decide)

/-- C2: the claim asserts that when no muxed variant exists, `"worst"`
falls back to the video-capable variants only; on `[fmtC, fmtAudioPlain]`
(video-only + audio-only, no muxed) the code returns the audio-only
variant, whose `is_audio_only` is `true`, so the claim as stated is
false. -/
theorem c2_counterexample :
    select_format [fmtC, fmtAudioPlain] "worst" false = .ok fmtAudioPlain ∧
    fmtAudioPlain.is_audio_only = true := by
  exact ⟨rfl, rfl⟩

/-- C2 (amended): for a non-empty catalog with policy `"worst"`: if a
muxed variant exists the result is a muxed variant minimizing
`quality_score` over the muxed variants; if no muxed variant exists the
fallback minimizes `quality_score` over ALL variants of the catalog
(audio-only variants included), not just the video-capable ones. -/
theorem c2_worst_selection (fmts : List Format) (h : fmts ≠ []) :
    (muxedOf fmts ≠ [] →
      ∃ v, select_format fmts "worst" false = .ok v ∧ v ∈ muxedOf fmts ∧
        ∀ w ∈ muxedOf fmts, v.quality_score ≤ w.quality_score) ∧
    (muxedOf fmts = [] →
      ∃ v, select_format fmts "worst" false = .ok v ∧ v ∈ fmts ∧
        ∀ w ∈ fmts, v.quality_score ≤ w.quality_score) := by
  rw [select_format_worst h]
  refine ⟨?_, ?_⟩
  · intro hm
    obtain ⟨r, hr⟩ := @minByKey_isSome Format.quality_score _ hm
    have hspec := minByKey_spec hr
    exact ⟨r, select_worst_of_muxed hr, isFirstMin_mem hspec, isFirstMin_le hspec⟩
  · intro hm
    obtain ⟨r, hr⟩ := @minByKey_isSome Format.quality_score _ h
    have hspec := minByKey_spec hr
    exact ⟨r, select_worst_of_fallback hm hr, isFirstMin_mem hspec, isFirstMin_le hspec⟩

/-- Witness for C2: on the all-muxed catalog `[fmtA, fmtB]`, `"worst"`
picks a muxed variant of minimal score. -/
theorem c2_worst_selection_witness :
    ∃ v, select_format [fmtA, fmtB] "worst" false = .ok v ∧
      v ∈ muxedOf [fmtA, fmtB] ∧
      ∀ w ∈ muxedOf [fmtA, fmtB], v.quality_score ≤ w.quality_score :=
  (c2_worst_selection [fmtA, fmtB] (by decide)).1 (by decide)

/-- C6: the empty-catalog check runs before everything else, so every
policy token (and either value of the audio flag) yields `NoFormats` on
`[]`; and on a non-empty catalog a token that is not one of the four
keywords after lowercasing, and matches no variant id, yields
`FormatNotFound` carrying the token. -/
theorem c6_selection_errors :
    (∀ (tok : String) (ao : Bool), select_format [] tok ao = .error .noFormats) ∧
    (∀ (fmts : List Format) (tok : String), fmts ≠ [] →
      toLowercase tok ∉ (["best", "bestaudio", "bestvideo", "worst"] : List String) →
      (∀ f ∈ fmts, f.format_id ≠ tok) →
      select_format fmts tok false = .error (.formatNotFound tok)) := by
  refine ⟨fun tok ao => rfl, ?_⟩
  intro fmts tok hne hkw hid
  simp only [List.mem_cons, List.mem_singleton, not_or] at hkw
  have hfind : fmts.find? (fun f => f.format_id == tok) = none :=
    List.find?_eq_none.2 (fun f hf => by simp [hid f hf])
  simp [select_format, isEmpty_false_of_ne hne, hkw.1, hkw.2.1, hkw.2.2.1,
    hkw.2.2.2, hfind]

/-- Witness for C6: the empty catalog fails with `NoFormats`, and the
unmatched literal id `"42"` fails with `FormatNotFound "42"`. -/
theorem c6_selection_errors_witness :
    select_format [] "best" true = .error .noFormats ∧
    select_format [fmtA] "42" false = .error (.formatNotFound "42") :=
  ⟨c6_selection_errors.1 "best" true,
   c6_selection_errors.2 [fmtA] "42" (by decide) (by decide) (by decide)⟩

/-- Modelled from the amended claim C7: the audio-tier weight, where an
ABSENT tier contributes 0 (the Rust code only adds a tier weight inside
`if let Some(aq)`), and an unrecognized present tier contributes 100. -/
def audioTierWeight : Option String → Int
  | some aq =>
      if aq = "AUDIO_QUALITY_HIGH" then 400
      else if aq = "AUDIO_QUALITY_MEDIUM" then 300
      else if aq = "AUDIO_QUALITY_LOW" then 200
      else 100
  | none => 0

/-- Modelled from the amended claim C7: the closed-form audio score
formula. -/
def audioScoreFormula (f : Format) : Int :=
  audioTierWeight f.audio_quality
  + (match f.audio_sample_rate with | some sr => (sr : Int) / 100 | none => 0)
  + (match f.bitrate with | some br => (br : Int) / 100 | none => 0)
  + (match f.audio_channels with | some ch => (ch : Int) * 50 | none => 0)

/-- C7: the claim asserts the tier weight is 100 "for any other case,
including a variant with no audio tier"; on a variant with
`audio_quality = none` (and no sample rate / bitrate / channels) the code
computes 0, not 100. -/
theorem c7_counterexample :
    fmtAudioPlain.audio_quality = none ∧
    Format.audio_quality_score fmtAudioPlain = 0 ∧
    Format.audio_quality_score fmtAudioPlain ≠ 100 := by
  refine ⟨rfl, rfl, ?_⟩
  intro h
  rw [show Format.audio_quality_score fmtAudioPlain = 0 from rfl] at h
  cases h

/-- C7 (amended): `audio_quality_score` equals tier weight (400 high /
300 medium / 200 low / 100 for any other PRESENT tier, 0 when absent)
plus sampleRate/100 plus bitrate/100 plus channels×50, with absent fields
contributing 0. -/
theorem c7_audio_score (f : Format) :
    f.audio_quality_score = audioScoreFormula f := by
  unfold Format.audio_quality_score audioScoreFormula
  rcases hq : f.audio_quality with _ | aq <;>
    rcases hs : f.audio_sample_rate with _ | sr <;>
      rcases hb : f.bitrate with _ | br <;>
        rcases hc : f.audio_channels with _ | ch <;>
          simp [audioTierWeight]

/-- C9: tie-breaking is asymmetric: the maximizing selections (`best`,
`bestvideo`, `bestaudio`) return the LAST eligible variant attaining the
maximal score (in catalog order), while the minimizing `worst` returns
the FIRST eligible variant attaining the minimal score. -/
theorem c9_tie_break (fmts : List Format) :
    (∀ v, select_best fmts = .ok v →
      (muxedOf fmts ≠ [] → isLastMax Format.quality_score (muxedOf fmts) v) ∧
      (muxedOf fmts = [] →
        isLastMax Format.quality_score (videoCapableOf fmts) v)) ∧
    (∀ v, select_best_video fmts = .ok v →
      isLastMax Format.quality_score (videoCapableOf fmts) v) ∧
    (∀ v, select_best_audio fmts = .ok v →
      isLastMax Format.audio_quality_score (audioCapableOf fmts) v) ∧
    (∀ v, select_worst fmts = .ok v →
      (muxedOf fmts ≠ [] → isFirstMin Format.quality_score (muxedOf fmts) v) ∧
      (muxedOf fmts = [] → isFirstMin Format.quality_score fmts v)) := by
  refine ⟨?_, ?_, ?_, ?_⟩
  · intro v hv
    rcases select_best_inv hv with ⟨hne, hmax⟩ | ⟨hnil, hmax⟩
    · exact ⟨fun _ => maxByKey_spec hmax, fun h => absurd h hne⟩
    · exact ⟨fun h => absurd hnil h, fun _ => maxByKey_spec hmax⟩
  · intro v hv
    exact maxByKey_spec (select_best_video_inv hv)
  · intro v hv
    exact maxByKey_spec (select_best_audio_inv hv)
  · intro v hv
    rcases select_worst_inv hv with ⟨hne, hmin⟩ | ⟨hnil, hmin⟩
    · exact ⟨fun _ => minByKey_spec hmin, fun h => absurd h hne⟩
    · exact ⟨fun h => absurd hnil h, fun _ => minByKey_spec hmin⟩

/-- Witness for C9: on two muxed variants with identical scores, `best`
returns the second (last) one and `worst` the first one. -/
theorem c9_tie_break_witness :
    isLastMax Format.quality_score (muxedOf [fmtA, fmtATwin]) fmtATwin ∧
    isFirstMin Format.quality_score (muxedOf [fmtA, fmtATwin]) fmtA :=
  ⟨((c9_tie_break [fmtA, fmtATwin]).1 fmtATwin rfl).1 (by decide),
   ((c9_tie_break [fmtA, fmtATwin]).2.2.2 fmtA rfl).1 (by decide)⟩

/-- C10: when the audio flag is set and the catalog is non-empty, the
policy token is never consulted: the result is exactly the best-audio
selection, and any returned variant is audio-capable with maximal
`audio_quality_score` among the audio-capable variants. -/
theorem c10_audio_only_flag (fmts : List Format) (tok : String)
    (h : fmts ≠ []) :
    select_format fmts tok true = select_best_audio fmts ∧
    ∀ v, select_format fmts tok true = .ok v →
      v ∈ audioCapableOf fmts ∧
      ∀ w ∈ audioCapableOf fmts,
        w.audio_quality_score ≤ v.audio_quality_score := by
  have heq : select_format fmts tok true = select_best_audio fmts := by
    simp [select_format, isEmpty_false_of_ne h]
  refine ⟨heq, ?_⟩
  intro v hv
  rw [heq] at hv
  have hspec := maxByKey_spec (select_best_audio_inv hv)
  exact ⟨isLastMax_mem hspec, isLastMax_le hspec⟩

/-- Witness for C10: with the audio flag set, the token `"worst"` is
ignored and the best audio variant (`fmtA`, whose audio score beats
`fmtAudio`) is returned. -/
theorem c10_audio_only_flag_witness :
    select_format [fmtA, fmtAudio] "worst" true =
      select_best_audio [fmtA, fmtAudio] ∧
    (fmtA ∈ audioCapableOf [fmtA, fmtAudio] ∧
      ∀ w ∈ audioCapableOf [fmtA, fmtAudio],
        w.audio_quality_score ≤ fmtA.audio_quality_score) :=
  ⟨(c10_audio_only_flag [fmtA, fmtAudio] "worst" (by decide)).1,
   (c10_audio_only_flag [fmtA, fmtAudio] "worst" (by decide)).2 fmtA rfl⟩

/-! Embedding of the transfer engine, `src/downloader.rs`. -/

/-- Fixed chunk size: `CHUNK_SIZE` at src/downloader.rs:12. -/
def CHUNK_SIZE : Nat := 1024 * 1024

/-- One byte-range request `bytes=first-last` (both bounds inclusive), as
built at src/downloader.rs:74-80. -/
structure Req where
  first : Nat
  last : Nat
deriving Repr, DecidableEq

/-- One scripted transport response: HTTP status and number of body
bytes delivered. -/
structure Resp where
  status : Nat
  body : Nat
deriving Repr, DecidableEq

/-- reqwest `StatusCode::is_success`: a 2xx status. -/
def statusSuccess (s : Nat) : Bool := 200 ≤ s && s < 300

/-- Result of the chunk loop (src/downloader.rs:73-100): the issued range
requests in order and the final `downloaded` counter, which always equals
the `.part` file length because every received byte is appended.
`starved` marks a run whose scripted responses ran out while bytes were
still owed (the real loop would just block on the network there). -/
inductive LoopResult where
  | completed (reqs : List Req) (downloaded : Nat)
  | httpError (reqs : List Req) (downloaded : Nat) (status : Nat)
  | starved (reqs : List Req) (downloaded : Nat)
deriving Repr, DecidableEq

/-- Record one more issued request in front of a loop result. -/
def LoopResult.withReq (req : Req) : LoopResult → LoopResult
  | .completed reqs d => .completed (req :: reqs) d
  | .httpError reqs d s => .httpError (req :: reqs) d s
  | .starved reqs d => .starved (req :: reqs) d

/-- The `while downloaded < total_size` loop of `download`
(src/downloader.rs:73-100): issue the range request
`[downloaded, min(downloaded + CHUNK_SIZE - 1, total - 1)]`, fail on a
status that is neither 2xx nor 206, otherwise append the received bytes
and advance `downloaded` by their count. -/
def chunkLoop (total : Nat) : Nat → List Resp → LoopResult
  | downloaded, [] =>
      if downloaded < total then .starved [] downloaded
      else .completed [] downloaded
  | downloaded, r :: rest =>
      if downloaded < total then
        let req : Req := ⟨downloaded, min (downloaded + CHUNK_SIZE - 1) (total - 1)⟩
        if !statusSuccess r.status && r.status != 206 then
          .httpError [req] downloaded r.status
        else
          (chunkLoop total (downloaded + r.body) rest).withReq req
      else .completed [] downloaded

/-- On-disk state around one transfer: length of `<output>.part` when it
exists, and length of the destination file when it exists. -/
structure Fs where
  part : Option Nat
  dest : Option Nat
deriving Repr, DecidableEq

/-- Outcome of one modelled `download` run, with the resulting on-disk
state. -/
inductive DlOutcome where
  | ok (reqs : List Req) (fs : Fs)
  | httpError (reqs : List Req) (status : Nat) (fs : Fs)
  | starved (reqs : List Req) (fs : Fs)
deriving Repr, DecidableEq

/-- Finalization after the chunk loop: on completion the handle is
dropped and the temp file renamed onto the destination
(src/downloader.rs:102-107); on an HTTP error the function returns
immediately (src/downloader.rs:88-93), leaving the `.part` file in place
holding every byte appended so far — `download` has no deletion path. -/
def finishLoop (destF : Option Nat) : LoopResult → DlOutcome
  | .completed reqs d => .ok reqs { part := none, dest := some d }
  | .httpError reqs d s => .httpError reqs s { part := some d, dest := destF }
  | .starved reqs d => .starved reqs { part := some d, dest := destF }

/-- Mirrors `download` (src/downloader.rs:17-108) given the discovered
total size, the prior on-disk state and the scripted responses: when a
`.part` file exists its length is the resume offset, and when that offset
already reaches the total the loop is skipped entirely and the temp file
is renamed onto the destination (src/downloader.rs:34-41); otherwise the
loop starts at the resume offset (0 for a fresh file). -/
def download (total : Nat) (fs : Fs) (resps : List Resp) : DlOutcome :=
  match fs.part with
  | some len =>
      if len ≥ total then .ok [] { part := none, dest := some len }
      else finishLoop fs.dest (chunkLoop total len resps)
  | none => finishLoop fs.dest (chunkLoop total 0 resps)

/-- A transport script is well behaved from offset `d`: while bytes are
still owed, each response in turn has a 2xx status and delivers between 1
byte and the requested window (a compliant 206 never exceeds the
requested range). -/
def goodRun (total : Nat) : Nat → List Resp → Bool
  | d, [] => !decide (d < total)
  | d, r :: rest =>
      if d < total then
        statusSuccess r.status && decide (1 ≤ r.body) &&
          decide (r.body ≤ min CHUNK_SIZE (total - d)) &&
          goodRun total (d + r.body) rest
      else true

/-- The request start offsets determined by successive response sizes,
beginning at `d`. -/
def startsFrom (d : Nat) : List Nat → List Nat
  | [] => []
  | n :: ns => d :: startsFrom (d + n) ns

/-- The loop consumed exactly the responses `resps` from offset `d` —
each one issued while bytes were owed and accepted (2xx or 206) — ending
at offset `d'`. -/
def consumed (total : Nat) : Nat → List Resp → Nat → Bool
  | d, [], d' => d == d'
  | d, r :: rest, d' =>
      decide (d < total) && (statusSuccess r.status || r.status == 206) &&
        consumed total (d + r.body) rest d'

/-! Embedding of the batch aggregation, `src/main.rs`. -/

/-- Tally of per-job outcomes, exactly as the two atomic counters of
`run_batch` (src/main.rs:131-145): an `ok` job increments `succeeded`, an
`error` job increments `failed`. -/
def tally : List (Except Error Unit) → Nat × Nat
  | [] => (0, 0)
  | r :: rest =>
      let sf := tally rest
      match r with
      | .ok _ => (sf.1 + 1, sf.2)
      | .error _ => (sf.1, sf.2 + 1)

/-- Mirrors the final aggregation of `run_batch` (src/main.rs:154-170):
after every job has run, the batch is a hard failure exactly when
`failures > 0 && success == 0`. -/
def run_batch (results : List (Except Error Unit)) : Except Error Unit :=
  let success := (tally results).1
  let failures := (tally results).2
  if decide (failures > 0) && (success == 0) then
    .error (.downloadFailed "All downloads failed")
  else
    .ok ()

lemma chunkLoop_goodRun (total : Nat) (resps : List Resp) :
    ∀ (d : Nat), d < total → goodRun total d resps = true →
      ∃ reqs, chunkLoop total d resps = .completed reqs total ∧
        reqs.head? = some ⟨d, min (d + CHUNK_SIZE - 1) (total - 1)⟩ ∧
        reqs.map Req.first = startsFrom d ((resps.take reqs.length).map Resp.body) ∧
        (∀ rq ∈ reqs, rq.first < total ∧
          rq.last = min (rq.first + CHUNK_SIZE - 1) (total - 1)) ∧
        reqs.Chain' (fun a b => a.first < b.first) := by
  induction resps with
  | nil =>
      intro d hd hg
      simp [goodRun, hd] at hg
  | cons r rest ih =>
      intro d hd hg
      simp only [goodRun, if_pos hd, Bool.and_eq_true, decide_eq_true_eq] at hg
      obtain ⟨⟨⟨hst, hb1⟩, hb2⟩, hgr⟩ := hg
      have step : chunkLoop total d (r :: rest) =
          (chunkLoop total (d + r.body) rest).withReq
            ⟨d, min (d + CHUNK_SIZE - 1) (total - 1)⟩ := by
        simp [chunkLoop, hd, hst]
      by_cases h2 : d + r.body < total
      · obtain ⟨reqs, hcl, hhead, hstarts, hcov, hchain⟩ := ih (d + r.body) h2 hgr
        refine ⟨⟨d, min (d + CHUNK_SIZE - 1) (total - 1)⟩ :: reqs, ?_, rfl, ?_, ?_, ?_⟩
        · rw [step, hcl]
          rfl
        · simp only [List.map_cons, List.length_cons, List.take_succ_cons,
            startsFrom]
          rw [hstarts]
        · intro rq hrq
          rcases List.mem_cons.1 hrq with rfl | hrq
          · exact ⟨hd, rfl⟩
          · exact hcov rq hrq
        · rw [List.chain'_cons']
          refine ⟨?_, hchain⟩
          intro b hb
          rw [hhead] at hb
          have hbe : (⟨d + r.body, min (d + r.body + CHUNK_SIZE - 1) (total - 1)⟩ : Req) = b := by
            simpa using hb
          rw [← hbe]
          show d < d + r.body
          omega
      · have heq : d + r.body = total := by
          have hmin : r.body ≤ total - d := le_trans hb2 (min_le_right _ _)
          omega
        have hrest : chunkLoop total (d + r.body) rest = .completed [] (d + r.body) := by
          cases rest with
          | nil => simp [chunkLoop, heq]
          | cons r2 rest2 => simp [chunkLoop, heq]
        refine ⟨[⟨d, min (d + CHUNK_SIZE - 1) (total - 1)⟩], ?_, rfl, ?_, ?_, ?_⟩
        · rw [step, hrest]
          simp [LoopResult.withReq, heq]
        · simp [startsFrom]
        · intro rq hrq
          rcases List.mem_cons.1 hrq with rfl | hrq
          · exact ⟨hd, rfl⟩
          · cases hrq
        · simp

/-- C3: with an existing partial file of length `L < T` and a
well-behaved transport, the first range request is exactly
`[L, min(L + 1048576 - 1, T - 1)]`; every issued request covers
`[downloaded, min(downloaded + CHUNK_SIZE - 1, T - 1)]` where the start
offsets advance from `L` by exactly each response's byte count, so
successive requests are strictly increasing in byte offset; and the loop
exits with `downloaded = T`, finalizing the file at length `T`. -/
theorem c3_chunk_schedule (T L : Nat) (destF : Option Nat)
    (resps : List Resp) (hL : L < T) (hg : goodRun T L resps = true) :
    CHUNK_SIZE = 1048576 ∧
    ∃ reqs, download T { part := some L, dest := destF } resps =
        .ok reqs { part := none, dest := some T } ∧
      reqs.head? = some ⟨L, min (L + CHUNK_SIZE - 1) (T - 1)⟩ ∧
      reqs.map Req.first = startsFrom L ((resps.take reqs.length).map Resp.body) ∧
      (∀ rq ∈ reqs, rq.first < T ∧
        rq.last = min (rq.first + CHUNK_SIZE - 1) (T - 1)) ∧
      reqs.Chain' (fun a b => a.first < b.first) := by
  obtain ⟨reqs, hcl, hhead, hstarts, hcov, hchain⟩ :=
    chunkLoop_goodRun T resps L hL hg
  refine ⟨rfl, reqs, ?_, hhead, hstarts, hcov, hchain⟩
  simp [download, not_le.mpr hL, hcl, finishLoop]

/-- Witness for C3: resuming at offset 3 of a 1048581-byte resource takes
one full chunk and one 2-byte tail request. -/
theorem c3_chunk_schedule_witness :
    CHUNK_SIZE = 1048576 ∧
    ∃ reqs, download 1048581 { part := some 3, dest := none }
        [⟨206, 1048576⟩, ⟨206, 2⟩] =
        .ok reqs { part := none, dest := some 1048581 } ∧
      reqs.head? = some ⟨3, min (3 + CHUNK_SIZE - 1) (1048581 - 1)⟩ ∧
      reqs.map Req.first =
        startsFrom 3 (([⟨206, 1048576⟩, ⟨206, 2⟩] : List Resp).take
          reqs.length |>.map Resp.body) ∧
      (∀ rq ∈ reqs, rq.first < 1048581 ∧
        rq.last = min (rq.first + CHUNK_SIZE - 1) (1048581 - 1)) ∧
      reqs.Chain' (fun a b => a.first < b.first) :=
  c3_chunk_schedule 1048581 3 none [⟨206, 1048576⟩, ⟨206, 2⟩]
    (by decide) (by decide)

/-- C4: when the `.part` file length already reaches the discovered
total, `download` performs zero range requests, renames the temp file
onto the destination, and succeeds. -/
theorem c4_resume_short_circuit (T L : Nat) (destF : Option Nat)
    (resps : List Resp) (h : L ≥ T) :
    download T { part := some L, dest := destF } resps =
      .ok [] { part := none, dest := some L } := by
  simp [download, h]

/-- Witness for C4: a 10-byte `.part` file against a 10-byte total is
renamed without any request. -/
theorem c4_resume_short_circuit_witness :
    download 10 { part := some 10, dest := none } [⟨206, 1⟩] =
      .ok [] { part := none, dest := some 10 } :=
  c4_resume_short_circuit 10 10 none [⟨206, 1⟩] (by decide)

lemma chunkLoop_error_after (total : Nat) (pre : List Resp) :
    ∀ (d d' : Nat), consumed total d pre d' = true → d' < total →
      ∀ (r : Resp) (rest : List Resp),
        (statusSuccess r.status || r.status == 206) = false →
        ∃ reqs, chunkLoop total d (pre ++ r :: rest) =
            .httpError reqs d' r.status ∧
          d' = d + (pre.map Resp.body).sum := by
  induction pre with
  | nil =>
      intro d d' hcons hd' r rest hbad
      have hdd : d = d' := by simpa [consumed] using hcons
      subst hdd
      have hs : statusSuccess r.status = false := by
        cases hx : statusSuccess r.status
        · rfl
        · rw [hx] at hbad
          simp at hbad
      have hb : (r.status == 206) = false := by
        cases hx : (r.status == 206)
        · rfl
        · rw [hx] at hbad
          simp at hbad
      refine ⟨[⟨d, min (d + CHUNK_SIZE - 1) (total - 1)⟩], ?_, by simp⟩
      simp [chunkLoop, hd', hs, bne, hb]
  | cons p ps ih =>
      intro d d' hcons hd' r rest hbad
      simp only [consumed, Bool.and_eq_true, decide_eq_true_eq] at hcons
      obtain ⟨⟨hdt, hok⟩, hcons2⟩ := hcons
      obtain ⟨reqs, hcl, hsum⟩ := ih (d + p.body) d' hcons2 hd' r rest hbad
      have hc : (!statusSuccess p.status && p.status != 206) = false := by
        rcases Bool.or_eq_true_iff.mp hok with h | h
        · simp [h]
        · simp [bne, h]
      refine ⟨⟨d, min (d + CHUNK_SIZE - 1) (total - 1)⟩ :: reqs, ?_, ?_⟩
      · have step : chunkLoop total d ((p :: ps) ++ r :: rest) =
            (chunkLoop total (d + p.body) (ps ++ r :: rest)).withReq
              ⟨d, min (d + CHUNK_SIZE - 1) (total - 1)⟩ := by
          simp [chunkLoop, hdt, hc]
        rw [step, hcl]
        rfl
      · simp only [List.map_cons, List.sum_cons]
        omega

/-- C8: whenever the chunk loop receives a response whose status is
neither 2xx nor 206 (after any number of accepted responses bringing the
offset to `d' < T`), `download` aborts immediately with an HTTP error
carrying that status; the `.part` file is left in place (never deleted)
holding exactly the resume offset plus every byte appended so far, and
the destination file is untouched, so a later invocation can resume from
that length. -/
theorem c8_http_error_abort (T L d' : Nat) (destF : Option Nat)
    (pre : List Resp) (r : Resp) (rest : List Resp)
    (hL : L < T) (hcons : consumed T L pre d' = true) (hd : d' < T)
    (hbad : (statusSuccess r.status || r.status == 206) = false) :
    ∃ reqs, download T { part := some L, dest := destF } (pre ++ r :: rest) =
        .httpError reqs r.status { part := some d', dest := destF } ∧
      d' = L + (pre.map Resp.body).sum := by
  obtain ⟨reqs, hcl, hsum⟩ :=
    chunkLoop_error_after T pre L d' hcons hd r rest hbad
  refine ⟨reqs, ?_, hsum⟩
  simp [download, not_le.mpr hL, hcl, finishLoop]

/-- Witness for C8: after one accepted 3-byte chunk from offset 2, a 403
response aborts the transfer, leaving a 5-byte `.part` file. -/
theorem c8_http_error_abort_witness :
    ∃ reqs, download 10 { part := some 2, dest := none }
        ([⟨206, 3⟩] ++ ⟨403, 0⟩ :: []) =
        .httpError reqs 403 { part := some 5, dest := none } ∧
      5 = 2 + (([⟨206, 3⟩] : List Resp).map Resp.body).sum :=
  c8_http_error_abort 10 2 5 none [⟨206, 3⟩] ⟨403, 0⟩ []
    (by decide) (by decide) (by decide) (by decide)

/-- C5: a finished batch is an overall error exactly when at least one
job failed and none succeeded; any other combination of counts — all
succeeded, or a partial success — yields overall success. -/
theorem c5_batch_aggregation (results : List (Except Error Unit))
    (S F : Nat) (h : tally results = (S, F)) :
    ((∃ e, run_batch results = .error e) ↔ (F > 0 ∧ S = 0)) ∧
    ((run_batch results = .ok ()) ↔ (F = 0 ∨ S > 0)) := by
  have hs : (tally results).1 = S := by rw [h]
  have hf : (tally results).2 = F := by rw [h]
  rcases hF : F with _ | F2
  · subst hF
    constructor
    · simp [run_batch, hf]
    · simp [run_batch, hf]
  · rcases hS : S with _ | S2
    · subst hS
      constructor
      · simp [run_batch, hs, hf, hF]
      · simp [run_batch, hs, hf, hF]
    · subst hS
      constructor
      · simp [run_batch, hs, hf, hF]
      · simp [run_batch, hs, hf, hF]

/-- Witness for C5: a partial success (one job succeeded, two failed) is
an overall success, not an error. -/
theorem c5_batch_aggregation_witness :
    ((∃ e, run_batch [.ok (), .error .noFormats, .error .noFormats] = .error e) ↔
      ((2 : Nat) > 0 ∧ (1 : Nat) = 0)) ∧
    ((run_batch [.ok (), .error .noFormats, .error .noFormats] = .ok ()) ↔
      ((2 : Nat) = 0 ∨ (1 : Nat) > 0)) :=
  c5_batch_aggregation [.ok (), .error .noFormats, .error .noFormats] 1 2 rfl
